import Mathlib

/-!
Verification development for the Megaline subscriber-plan notebook.

The notebook loads a 3214-row CSV of subscriber usage records, splits it
60/20/20 into train/validation/test partitions with seed 12345, sweeps
decision-tree depths 1-5 and random-forest estimator counts tracking the
best validation accuracy under a strictly-greater update, thresholds a
linear-regression output at one half, and finally refits a random forest
with 15 estimators at depth 3 and reports its test accuracy.

Accuracies are embedded as rationals; the accuracy values recorded in the
notebook's output cells are exact fractions over the 643-record validation
and test partitions.
-/

namespace Megaline

/-- One subscriber-month record: four numeric usage features and the binary
plan label, mirroring the five columns of the loaded CSV. -/
structure Observation where
  calls : ℚ
  minutes : ℚ
  messages : ℚ
  mb_used : ℚ
  is_ultra : ℚ
deriving DecidableEq

/-- Number of positions at which two label lists agree, the numerator of the
accuracy metric. -/
def countMatches : List ℕ → List ℕ → ℕ
  | a :: as, b :: bs => (if a = b then 1 else 0) + countMatches as bs
  | _, _ => 0

/-- Accuracy of a prediction list against a ground-truth list: the fraction
of correctly classified records. -/
def accuracy_score (yTrue yPred : List ℕ) : ℚ :=
  (countMatches yTrue yPred : ℚ) / (yTrue.length : ℚ)

/-- Loop state of the decision-tree sweep: the best validation accuracy seen
so far and the depth that achieved it, both initialized to 0 before the
loop. -/
structure DTState where
  best_accuracy : ℚ
  best_depth : ℕ
deriving DecidableEq

/-- One iteration of the decision-tree sweep body: the candidate depth and
its validation accuracy replace the stored best exactly when the accuracy is
strictly greater than the stored best accuracy. -/
def dtStep (s : DTState) (c : ℕ × ℚ) : DTState :=
  if c.2 > s.best_accuracy then ⟨c.2, c.1⟩ else s

/-- The decision-tree sweep: fold the conditional update over the candidate
list, starting from best_accuracy = 0 and best_depth = 0. -/
def dtSweep (cands : List (ℕ × ℚ)) : DTState :=
  cands.foldl dtStep ⟨0, 0⟩

/-- Loop state of the random-forest sweeps. The source initializes a
variable named best_estimators that is never read again, while the update
branch assigns best_est, which does not exist before the first update; the
possibly-unbound best_est is embedded as an Option that starts out none. -/
structure RFState where
  best_accuracy : ℚ
  best_est : Option ℕ
deriving DecidableEq

/-- One iteration of a random-forest sweep body: the candidate estimator
count and its accuracy replace the stored best exactly when the accuracy is
strictly greater than the stored best accuracy. -/
def rfStep (s : RFState) (c : ℕ × ℚ) : RFState :=
  if c.2 > s.best_accuracy then ⟨c.2, some c.1⟩ else s

/-- A random-forest sweep: fold the conditional update over the candidate
list, starting from best_accuracy = 0 and best_est unset. -/
def rfSweep (cands : List (ℕ × ℚ)) : RFState :=
  cands.foldl rfStep ⟨0, none⟩

/-- Candidates of the decision-tree sweep: depths 1 through 5, each paired
with its validation accuracy. -/
def dtCandidates (acc : ℕ → ℚ) : List (ℕ × ℚ) :=
  (List.range' 1 5).map (fun d => (d, acc d))

/-- Candidates of the first random-forest sweep: estimator counts 10, 20,
30, 40, 50. -/
def rfCoarseCandidates (acc : ℕ → ℚ) : List (ℕ × ℚ) :=
  (List.range' 10 5 10).map (fun e => (e, acc e))

/-- Candidates of the second random-forest sweep: estimator counts 1 through
20. -/
def rfFineCandidates (acc : ℕ → ℚ) : List (ℕ × ℚ) :=
  (List.range' 1 20).map (fun e => (e, acc e))

/-- Console lines of the decision-tree sweep. The source prints the stored
best_depth, before the conditional update runs, next to the accuracy of the
candidate currently being evaluated. -/
def dtLogAux (s : DTState) : List (ℕ × ℚ) → List (ℕ × ℚ)
  | [] => []
  | c :: rest => (s.best_depth, c.2) :: dtLogAux (dtStep s c) rest

/-- Console lines of the decision-tree sweep from the initial state. -/
def dtSweepLog (cands : List (ℕ × ℚ)) : List (ℕ × ℚ) :=
  dtLogAux ⟨0, 0⟩ cands

/-- Console lines of a random-forest sweep. The source prints the current
candidate estimator count next to its accuracy. -/
def rfLogAux (s : RFState) : List (ℕ × ℚ) → List (ℕ × ℚ)
  | [] => []
  | c :: rest => (c.1, c.2) :: rfLogAux (rfStep s c) rest

/-- Console lines of a random-forest sweep from the initial state. -/
def rfSweepLog (cands : List (ℕ × ℚ)) : List (ℕ × ℚ) :=
  rfLogAux ⟨0, none⟩ cands

/-- Validation accuracies recorded in the notebook output for the
decision-tree sweep over depths 1 through 5, as exact fractions of the
643-record validation partition. -/
def dtRecordedAcc : ℕ → ℚ
  | 1 => 475 / 643
  | 2 => 487 / 643
  | 3 => 492 / 643
  | 4 => 491 / 643
  | 5 => 488 / 643
  | _ => 0

/-- Validation accuracies recorded in the notebook output for the second
random-forest sweep over estimator counts 1 through 20, as exact fractions
of the 643-record validation partition. -/
def rfFineRecordedAcc : ℕ → ℚ
  | 1 => 487 / 643
  | 2 => 487 / 643
  | 3 => 489 / 643
  | 4 => 489 / 643
  | 5 => 489 / 643
  | 6 => 492 / 643
  | 7 => 494 / 643
  | 8 => 495 / 643
  | 9 => 494 / 643
  | 10 => 496 / 643
  | 11 => 498 / 643
  | 12 => 494 / 643
  | 13 => 498 / 643
  | 14 => 495 / 643
  | 15 => 500 / 643
  | 16 => 494 / 643
  | 17 => 497 / 643
  | 18 => 495 / 643
  | 19 => 497 / 643
  | 20 => 496 / 643
  | _ => 0

/-- Configuration of a random-forest classifier as constructed in the
notebook: estimator count, maximum depth, and random seed. -/
structure RFConfig where
  n_estimators : ℕ
  max_depth : ℕ
  random_state : ℕ
deriving DecidableEq

/-- The refit configuration of the Test Model cell: 15 estimators, depth 3,
seed 12345. -/
def best_model : RFConfig := ⟨15, 3, 12345⟩

/-- Test accuracy recorded in the notebook output for the final model on the
643-record test partition: 504 correct of 643. -/
def accuracy_test : ℚ := 504 / 643

/-- The sanity floor of fifty percent used by the final sanity test. -/
def sanityFloor : ℚ := 1 / 2

/-- Binarization of a continuous regression prediction: strictly greater
than the fixed threshold one half maps to class 1, otherwise class 0. -/
def binarize (p : ℚ) : ℕ := if p > 1 / 2 then 1 else 0

/-- Binarized class predictions for a list of continuous predictions. -/
def predictions_binary (ps : List ℚ) : List ℕ := ps.map binarize

lemma dtStep_best_accuracy (s : DTState) (c : ℕ × ℚ) :
    (dtStep s c).best_accuracy = max s.best_accuracy c.2 := by
  by_cases h : s.best_accuracy < c.2
  · simp [dtStep, h, max_eq_right h.le]
  · simp [dtStep, h, max_eq_left (not_lt.mp h)]

lemma foldl_max_init_le (cands : List (ℕ × ℚ)) (m : ℚ) :
    m ≤ cands.foldl (fun a c => max a c.2) m := by
  induction cands generalizing m with
  | nil => exact le_rfl
  | cons c rest ih =>
    rw [List.foldl_cons]
    exact le_trans (le_max_left m c.2) (ih (max m c.2))

lemma mem_le_foldl_max (cands : List (ℕ × ℚ)) (m : ℚ) :
    ∀ c ∈ cands, c.2 ≤ cands.foldl (fun a c => max a c.2) m := by
  induction cands generalizing m with
  | nil => intro c hc; exact absurd hc (List.not_mem_nil c)
  | cons c rest ih =>
    intro d hd
    rw [List.foldl_cons]
    rcases List.mem_cons.mp hd with rfl | hd2
    · exact le_trans (le_max_right m d.2) (foldl_max_init_le rest (max m d.2))
    · exact ih (max m c.2) d hd2

lemma foldl_dtStep_best_accuracy (cands : List (ℕ × ℚ)) (s : DTState) :
    (cands.foldl dtStep s).best_accuracy
      = cands.foldl (fun a c => max a c.2) s.best_accuracy := by
  induction cands generalizing s with
  | nil => rfl
  | cons c rest ih =>
    rw [List.foldl_cons, List.foldl_cons, ih (dtStep s c), dtStep_best_accuracy]

lemma foldl_dtStep_le (cands : List (ℕ × ℚ)) (s : DTState) :
    s.best_accuracy ≤ (cands.foldl dtStep s).best_accuracy := by
  rw [foldl_dtStep_best_accuracy]
  exact foldl_max_init_le cands s.best_accuracy

lemma foldl_dtStep_mem_le (cands : List (ℕ × ℚ)) (s : DTState) :
    ∀ c ∈ cands, c.2 ≤ (cands.foldl dtStep s).best_accuracy := by
  rw [foldl_dtStep_best_accuracy]
  exact mem_le_foldl_max cands s.best_accuracy

lemma foldl_dtStep_stagnant (cands : List (ℕ × ℚ)) (s : DTState)
    (h : (cands.foldl dtStep s).best_accuracy = s.best_accuracy) :
    cands.foldl dtStep s = s := by
  induction cands generalizing s with
  | nil => rfl
  | cons c rest ih =>
    by_cases hc : s.best_accuracy < c.2
    · exfalso
      have hstep : (dtStep s c).best_accuracy = c.2 := by
        simp [dtStep, hc]
      have hmono := foldl_dtStep_le rest (dtStep s c)
      rw [List.foldl_cons] at h
      rw [hstep, h] at hmono
      exact absurd hmono (not_le.mpr hc)
    · have hstep : dtStep s c = s := by simp [dtStep, hc]
      rw [List.foldl_cons, hstep] at h ⊢
      exact ih s h

lemma foldl_dtStep_find (cands : List (ℕ × ℚ)) (s : DTState)
    (h : s.best_accuracy < (cands.foldl dtStep s).best_accuracy) :
    (cands.find? (fun c => c.2 = (cands.foldl dtStep s).best_accuracy)).map
        Prod.fst
      = some (cands.foldl dtStep s).best_depth := by
  induction cands generalizing s with
  | nil => exact absurd h (lt_irrefl _)
  | cons c rest ih =>
    rw [List.foldl_cons] at h ⊢
    by_cases hc : s.best_accuracy < c.2
    · have hup : dtStep s c = ⟨c.2, c.1⟩ := by simp [dtStep, hc]
      by_cases h2 : (dtStep s c).best_accuracy
          < (rest.foldl dtStep (dtStep s c)).best_accuracy
      · have hba : (dtStep s c).best_accuracy = c.2 := by rw [hup]
        have hne : c.2 ≠ (rest.foldl dtStep (dtStep s c)).best_accuracy :=
          ne_of_lt (hba ▸ h2)
        rw [List.find?_cons_of_neg _ (by simpa using hne)]
        exact ih (dtStep s c) h2
      · have hmono := foldl_dtStep_le rest (dtStep s c)
        have heq : (rest.foldl dtStep (dtStep s c)).best_accuracy
            = (dtStep s c).best_accuracy := le_antisymm (not_lt.mp h2) hmono
        have hfix := foldl_dtStep_stagnant rest (dtStep s c) heq
        rw [hfix, hup]
        rw [List.find?_cons_of_pos _ (by simp)]
        rfl
    · have hstep : dtStep s c = s := by simp [dtStep, hc]
      rw [hstep] at h ⊢
      have hne : c.2 ≠ (rest.foldl dtStep s).best_accuracy :=
        ne_of_lt (lt_of_le_of_lt (not_lt.mp hc) h)
      rw [List.find?_cons_of_neg _ (by simpa using hne)]
      exact ih s h

/-- Projection of the random-forest loop state onto the decision-tree loop
state, reading the unset best_est as the default 0. Both sweep bodies share
the strictly-greater update, so the projection commutes with the steps. -/
def rfToDT (s : RFState) : DTState :=
  ⟨s.best_accuracy, s.best_est.getD 0⟩

lemma rfToDT_step (s : RFState) (c : ℕ × ℚ) :
    rfToDT (rfStep s c) = dtStep (rfToDT s) c := by
  by_cases h : s.best_accuracy < c.2
  · simp [rfStep, dtStep, rfToDT, h]
  · simp [rfStep, dtStep, rfToDT, h]

lemma rfToDT_foldl (cands : List (ℕ × ℚ)) (s : RFState) :
    rfToDT (cands.foldl rfStep s) = cands.foldl dtStep (rfToDT s) := by
  induction cands generalizing s with
  | nil => rfl
  | cons c rest ih => rw [List.foldl_cons, List.foldl_cons, ih, rfToDT_step]

lemma rfStep_isSome (s : RFState) (c : ℕ × ℚ) (h : s.best_est.isSome) :
    (rfStep s c).best_est.isSome := by
  by_cases hc : s.best_accuracy < c.2
  · simp [rfStep, hc]
  · simpa [rfStep, hc] using h

lemma foldl_rfStep_isSome (cands : List (ℕ × ℚ)) (s : RFState)
    (h : s.best_est.isSome) : (cands.foldl rfStep s).best_est.isSome := by
  induction cands generalizing s with
  | nil => exact h
  | cons c rest ih =>
    rw [List.foldl_cons]
    exact ih (rfStep s c) (rfStep_isSome s c h)

lemma rfStep_invariant (s : RFState) (c : ℕ × ℚ)
    (h : 0 < s.best_accuracy → s.best_est.isSome) :
    0 < (rfStep s c).best_accuracy → (rfStep s c).best_est.isSome := by
  by_cases hc : s.best_accuracy < c.2
  · intro _
    simp [rfStep, hc]
  · simpa [rfStep, hc] using h

lemma foldl_rfStep_some_of_pos (cands : List (ℕ × ℚ)) (s : RFState)
    (hinv : 0 < s.best_accuracy → s.best_est.isSome)
    (hex : ∃ c ∈ cands, 0 < c.2) :
    (cands.foldl rfStep s).best_est.isSome := by
  induction cands generalizing s with
  | nil => simp at hex
  | cons c rest ih =>
    rw [List.foldl_cons]
    rcases hex with ⟨d, hd, hdpos⟩
    rcases List.mem_cons.mp hd with rfl | hd2
    · by_cases hc : s.best_accuracy < d.2
      · exact foldl_rfStep_isSome rest (rfStep s d) (by simp [rfStep, hc])
      · have hsome : s.best_est.isSome :=
          hinv (lt_of_lt_of_le hdpos (not_lt.mp hc))
        exact foldl_rfStep_isSome rest (rfStep s d) (rfStep_isSome s d hsome)
    · exact ih (rfStep s c) (rfStep_invariant s c hinv) ⟨d, hd2, hdpos⟩

lemma foldl_rfStep_of_nonpos (cands : List (ℕ × ℚ)) (s : RFState)
    (h0 : 0 ≤ s.best_accuracy) (hz : ∀ c ∈ cands, c.2 ≤ 0) :
    cands.foldl rfStep s = s := by
  induction cands generalizing s with
  | nil => rfl
  | cons c rest ih =>
    have hc : ¬ s.best_accuracy < c.2 :=
      not_lt.mpr (le_trans (hz c (List.mem_cons_self c rest)) h0)
    rw [List.foldl_cons, show rfStep s c = s from by simp [rfStep, hc]]
    exact ih s h0 (fun d hd => hz d (List.mem_cons_of_mem c hd))

lemma foldl_dtStep_of_nonpos (cands : List (ℕ × ℚ)) (s : DTState)
    (h0 : 0 ≤ s.best_accuracy) (hz : ∀ c ∈ cands, c.2 ≤ 0) :
    cands.foldl dtStep s = s := by
  induction cands generalizing s with
  | nil => rfl
  | cons c rest ih =>
    have hc : ¬ s.best_accuracy < c.2 :=
      not_lt.mpr (le_trans (hz c (List.mem_cons_self c rest)) h0)
    rw [List.foldl_cons, show dtStep s c = s from by simp [dtStep, hc]]
    exact ih s h0 (fun d hd => hz d (List.mem_cons_of_mem c hd))

/-- C2: the final-evaluation stage refits a random forest with exactly 15
estimators, max depth 3 and seed 12345, and the recorded test accuracy of
504 of 643 correct exceeds the fifty percent sanity floor. -/
theorem c2_final_evaluation :
    best_model.n_estimators = 15 ∧ best_model.max_depth = 3 ∧
    best_model.random_state = 12345 ∧ sanityFloor < accuracy_test ∧
    accuracy_test ≤ 1 := by
  refine ⟨rfl, rfl, rfl, ?_, ?_⟩ <;> norm_num [accuracy_test, sanityFloor]

/-- C3: binarization compares strictly against the fixed threshold one half,
so a prediction of exactly one half maps to class 0 and every prediction
strictly above one half maps to class 1; the prediction vector is binarized
elementwise. -/
theorem c3_threshold_boundary (ps : List ℚ) (p : ℚ) :
    binarize (1 / 2) = 0 ∧ (1 / 2 < p → binarize p = 1) ∧
    (p ≤ 1 / 2 → binarize p = 0) ∧
    predictions_binary ps = ps.map binarize := by
  refine ⟨by norm_num [binarize], fun h => ?_, fun h => ?_, rfl⟩
  · unfold binarize
    rw [if_pos h]
  · unfold binarize
    rw [if_neg (not_lt.mpr h)]

/-- Witness for C3 at concrete predictions one half, three quarters and one
quarter. -/
theorem c3_threshold_boundary_witness :
    binarize (1 / 2) = 0 ∧ binarize (3 / 4) = 1 ∧ binarize (1 / 4) = 0 := by
  have h34 := c3_threshold_boundary [] (3 / 4)
  have h14 := c3_threshold_boundary [] (1 / 4)
  exact ⟨h34.1, h34.2.1 (by norm_num), h14.2.2.1 (by norm_num)⟩

set_option maxRecDepth 100000

/-- C6: on the recorded run, the decision-tree sweep over depths 1 through 5
selects depth 3, the fine random-forest sweep over estimator counts 1
through 20 selects 15 estimators, and the final test accuracy exceeds
seventy-five percent. -/
theorem c6_end_to_end :
    (dtSweep (dtCandidates dtRecordedAcc)).best_depth = 3 ∧
    (rfSweep (rfFineCandidates rfFineRecordedAcc)).best_est = some 15 ∧
    75 / 100 < accuracy_test := by
  refine ⟨?_, ?_, by norm_num [accuracy_test]⟩
  · norm_num [dtSweep, dtCandidates, dtRecordedAcc, dtStep, List.range', List.foldl]
  · norm_num [rfSweep, rfFineCandidates, rfFineRecordedAcc, rfStep, List.range',
      List.foldl]

/-- A candidate list on which every validation accuracy is zero, exercising
the sweep's degenerate path in which no update ever fires. -/
def zeroCands : List (ℕ × ℚ) := [(1, 0), (2, 0)]

/-- C1 counterexample: on the all-zero candidate list the maximum accuracy 0
is first attained by the candidate with hyperparameter 1, yet the sweep
keeps its initializer and reports best_depth 0, so the selected value is not
the first candidate attaining the maximum. -/
theorem c1_counterexample :
    (dtSweep zeroCands).best_accuracy = 0 ∧
    (zeroCands.find?
        (fun c => c.2 = (dtSweep zeroCands).best_accuracy)).map Prod.fst
      = some 1 ∧
    (dtSweep zeroCands).best_depth = 0 ∧
    (dtSweep zeroCands).best_depth ≠ 1 := by
  norm_num [zeroCands, dtSweep, dtStep, List.foldl, List.find?]

/-- C1 (amended): for every sweep over nonnegative candidate accuracies with
at least one candidate, the tracked best accuracy is an upper bound of and
is attained among the candidate accuracies; whenever the best accuracy is
strictly positive, the selected hyperparameter value is the first candidate
in iteration order attaining that maximum (for the random-forest sweep the
assigned best_est holds exactly that value); when every candidate accuracy
is zero the selection keeps its initial state instead. -/
theorem c1_sweep_tracks_max (cands : List (ℕ × ℚ))
    (hnn : ∀ c ∈ cands, 0 ≤ c.2) (hne : cands ≠ []) :
    (∀ c ∈ cands, c.2 ≤ (dtSweep cands).best_accuracy) ∧
    (∃ c ∈ cands, c.2 = (dtSweep cands).best_accuracy) ∧
    (0 < (dtSweep cands).best_accuracy →
      (cands.find?
          (fun c => c.2 = (dtSweep cands).best_accuracy)).map Prod.fst
        = some (dtSweep cands).best_depth) ∧
    (rfSweep cands).best_accuracy = (dtSweep cands).best_accuracy ∧
    (0 < (dtSweep cands).best_accuracy →
      (rfSweep cands).best_est = some (dtSweep cands).best_depth) := by
  have hub : ∀ c ∈ cands, c.2 ≤ (dtSweep cands).best_accuracy :=
    foldl_dtStep_mem_le cands ⟨0, 0⟩
  have htransfer : rfToDT (rfSweep cands) = dtSweep cands :=
    rfToDT_foldl cands ⟨0, none⟩
  have hba : (rfSweep cands).best_accuracy = (dtSweep cands).best_accuracy :=
    congrArg DTState.best_accuracy htransfer
  have hattain : ∃ c ∈ cands, c.2 = (dtSweep cands).best_accuracy := by
    by_cases hpos : 0 < (dtSweep cands).best_accuracy
    · have hfind := foldl_dtStep_find cands ⟨0, 0⟩ hpos
      cases hres : cands.find?
          (fun c => c.2 = (dtSweep cands).best_accuracy) with
      | none =>
        rw [show dtSweep cands = cands.foldl dtStep ⟨0, 0⟩ from rfl] at hres
        rw [hres] at hfind
        exact absurd hfind (by simp)
      | some c0 =>
        refine ⟨c0, List.mem_of_find?_eq_some hres, ?_⟩
        have := List.find?_some hres
        simpa using this
    · have hzero : (dtSweep cands).best_accuracy = 0 :=
        le_antisymm (not_lt.mp hpos) (foldl_dtStep_le cands ⟨0, 0⟩)
      cases cands with
      | nil => exact absurd rfl hne
      | cons c rest =>
        refine ⟨c, List.mem_cons_self c rest, ?_⟩
        rw [hzero]
        exact le_antisymm
          (hzero ▸ hub c (List.mem_cons_self c rest))
          (hnn c (List.mem_cons_self c rest))
  refine ⟨hub, hattain, fun hpos => foldl_dtStep_find cands ⟨0, 0⟩ hpos,
    hba, fun hpos => ?_⟩
  obtain ⟨d, hd, hdacc⟩ := hattain
  have hsome : (rfSweep cands).best_est.isSome :=
    foldl_rfStep_some_of_pos cands ⟨0, none⟩ (by simp)
      ⟨d, hd, hdacc ▸ hpos⟩
  obtain ⟨v, hv⟩ := Option.isSome_iff_exists.mp hsome
  have hdepth : (rfSweep cands).best_est.getD 0 = (dtSweep cands).best_depth :=
    congrArg DTState.best_depth htransfer
  rw [hv] at hdepth ⊢
  rw [Option.getD_some] at hdepth
  rw [hdepth]

/-- Witness for C1 at a concrete two-candidate sweep with equal positive
accuracies: the maximum is attained and the first attaining candidate is
selected. -/
theorem c1_sweep_tracks_max_witness :
    ∃ c ∈ [((3 : ℕ), (1 : ℚ) / 2), (4, 1 / 2)],
      c.2 = (dtSweep [((3 : ℕ), (1 : ℚ) / 2), (4, 1 / 2)]).best_accuracy := by
  exact (c1_sweep_tracks_max [(3, 1 / 2), (4, 1 / 2)]
    (by norm_num) (List.cons_ne_nil _ _)).2.1

/-- C10: the random-forest sweeps assign best_est only inside the
strictly-greater update branch while initializing the differently named
best_estimators, so the final summary's best_est is set only if some
candidate accuracy is strictly positive; on an all-zero accuracy run it
stays unset (the print raises an unbound-name error), and under the same
condition the decision-tree sweep reports best depth 0, which is outside
the candidate range 1 through 5. -/
theorem c10_unbound_best_est (acc acc2 accd : ℕ → ℚ) :
    ((rfSweep (rfFineCandidates acc)).best_est.isSome →
      ∃ e ∈ List.range' 1 20, 0 < acc e) ∧
    ((∀ e ∈ List.range' 1 20, acc e = 0) →
      (rfSweep (rfFineCandidates acc)).best_est = none) ∧
    ((∀ e ∈ List.range' 10 5 10, acc2 e = 0) →
      (rfSweep (rfCoarseCandidates acc2)).best_est = none) ∧
    ((∀ d ∈ List.range' 1 5, accd d = 0) →
      (dtSweep (dtCandidates accd)).best_depth = 0 ∧
        0 ∉ List.range' 1 5) := by
  refine ⟨fun hsome => ?_, fun hz => ?_, fun hz => ?_, fun hz => ?_⟩
  · by_contra hno
    push_neg at hno
    have hzall : ∀ c ∈ rfFineCandidates acc, c.2 ≤ 0 := by
      intro c hc
      obtain ⟨e, he, rfl⟩ := List.mem_map.mp hc
      exact hno e he
    rw [show rfSweep (rfFineCandidates acc)
        = (rfFineCandidates acc).foldl rfStep ⟨0, none⟩ from rfl,
      foldl_rfStep_of_nonpos (rfFineCandidates acc) ⟨0, none⟩ le_rfl hzall]
      at hsome
    simp at hsome
  · have hzall : ∀ c ∈ rfFineCandidates acc, c.2 ≤ 0 := by
      intro c hc
      obtain ⟨e, he, rfl⟩ := List.mem_map.mp hc
      exact le_of_eq (hz e he)
    rw [show rfSweep (rfFineCandidates acc)
        = (rfFineCandidates acc).foldl rfStep ⟨0, none⟩ from rfl,
      foldl_rfStep_of_nonpos (rfFineCandidates acc) ⟨0, none⟩ le_rfl hzall]
  · have hzall : ∀ c ∈ rfCoarseCandidates acc2, c.2 ≤ 0 := by
      intro c hc
      obtain ⟨e, he, rfl⟩ := List.mem_map.mp hc
      exact le_of_eq (hz e he)
    rw [show rfSweep (rfCoarseCandidates acc2)
        = (rfCoarseCandidates acc2).foldl rfStep ⟨0, none⟩ from rfl,
      foldl_rfStep_of_nonpos (rfCoarseCandidates acc2) ⟨0, none⟩ le_rfl hzall]
  · have hzall : ∀ c ∈ dtCandidates accd, c.2 ≤ 0 := by
      intro c hc
      obtain ⟨d, hd, rfl⟩ := List.mem_map.mp hc
      exact le_of_eq (hz d hd)
    constructor
    · rw [show dtSweep (dtCandidates accd)
          = (dtCandidates accd).foldl dtStep ⟨0, 0⟩ from rfl,
        foldl_dtStep_of_nonpos (dtCandidates accd) ⟨0, 0⟩ le_rfl hzall]
    · decide

/-- Witness for C10 at the constantly-zero accuracy assignment: both
random-forest sweeps leave best_est unset and the decision-tree sweep
reports best depth 0. -/
theorem c10_unbound_best_est_witness :
    (rfSweep (rfFineCandidates (fun _ => 0))).best_est = none ∧
    (rfSweep (rfCoarseCandidates (fun _ => 0))).best_est = none ∧
    (dtSweep (dtCandidates (fun _ => 0))).best_depth = 0 := by
  have h := c10_unbound_best_est (fun _ => 0) (fun _ => 0) (fun _ => 0)
  exact ⟨h.2.1 (fun e _ => rfl), h.2.2.1 (fun e _ => rfl),
    (h.2.2.2 (fun d _ => rfl)).1⟩

lemma rfLogAux_eq (cands : List (ℕ × ℚ)) (s : RFState) :
    rfLogAux s cands = cands := by
  induction cands generalizing s with
  | nil => rfl
  | cons c rest ih => simp [rfLogAux, ih]

lemma dtLogAux_get (cands : List (ℕ × ℚ)) (s : DTState) (i : ℕ) :
    (dtLogAux s cands)[i]? =
      (cands[i]?).map
        (fun c => (((cands.take i).foldl dtStep s).best_depth, c.2)) := by
  induction cands generalizing s i with
  | nil => simp [dtLogAux]
  | cons c rest ih =>
    cases i with
    | zero => simp [dtLogAux]
    | succ n =>
      simp only [dtLogAux, List.getElem?_cons_succ, List.take_succ_cons,
        List.foldl_cons]
      exact ih (dtStep s c) n

/-- C5 counterexample: the first console line of the decision-tree sweep on
the recorded run pairs the label 0 (the stale best depth) with the accuracy
of the depth-1 model, so the printed depth label does not correspond to the
model whose accuracy is printed on that line. -/
theorem c5_counterexample :
    (dtSweepLog (dtCandidates dtRecordedAcc))[0]? = some (0, 475 / 643) ∧
    (dtCandidates dtRecordedAcc)[0]? = some (1, 475 / 643) ∧
    (0 : ℕ) ≠ 1 := by
  refine ⟨?_, ?_, by norm_num⟩
  · norm_num [dtSweepLog, dtLogAux, dtCandidates, dtRecordedAcc, List.range']
  · norm_num [dtCandidates, dtRecordedAcc, List.range']

/-- C5 (amended): in the random-forest sweeps each console line pairs the
current estimator count with that candidate's accuracy; in the decision-tree
sweep each line pairs the stale best depth as of before the current
conditional update (the best depth over the earlier candidates only) with
the current candidate's accuracy; the final best summary is the sweep's
final state. -/
theorem c5_log_lines (cands : List (ℕ × ℚ)) (i : ℕ) :
    rfSweepLog cands = cands ∧
    (dtSweepLog cands)[i]? =
      (cands[i]?).map
        (fun c => ((dtSweep (cands.take i)).best_depth, c.2)) :=
  ⟨rfLogAux_eq cands ⟨0, none⟩, dtLogAux_get cands ⟨0, 0⟩ i⟩

lemma countMatches_le (a b : List ℕ) : countMatches a b ≤ a.length := by
  induction a generalizing b with
  | nil => simp [countMatches]
  | cons x xs ih =>
    cases b with
    | nil => simp [countMatches]
    | cons y ys =>
      simp only [countMatches, List.length_cons]
      have h := ih ys
      split <;> omega

/-- C7: accuracy is the fraction of correctly classified records, and it
lies in the closed unit interval for every ground-truth list and every
prediction list. -/
theorem c7_accuracy_unit_interval (yTrue yPred : List ℕ) :
    0 ≤ accuracy_score yTrue yPred ∧ accuracy_score yTrue yPred ≤ 1 := by
  unfold accuracy_score
  constructor
  · apply div_nonneg
    · exact_mod_cast Nat.zero_le _
    · exact_mod_cast Nat.zero_le _
  · rcases Nat.eq_zero_or_pos yTrue.length with h | h
    · simp [h]
    · rw [div_le_one (by exact_mod_cast h)]
      exact_mod_cast countMatches_le yTrue yPred

/-- The three data partitions produced by the split, as row lists. -/
structure Partitions where
  train : List ℕ
  valid : List ℕ
  test : List ℕ
deriving DecidableEq

/-- Full loop state of a sweep: the partitions together with the only
variables the loop writes, the best accuracy and best hyperparameter. -/
structure RunState where
  parts : Partitions
  best_accuracy : ℚ
  best_param : ℕ
deriving DecidableEq

/-- One sweep iteration over the full state: the candidate's model is fit
on the training partition and scored on the validation partition (the
library fit-and-score call is abstracted as a function of exactly those
inputs), then the best pair is conditionally updated. -/
def sweepStepFull (fitScore : List ℕ → List ℕ → ℕ → ℚ) (s : RunState)
    (c : ℕ) : RunState :=
  let accuracy := fitScore s.parts.train s.parts.valid c
  if accuracy > s.best_accuracy then
    { s with best_accuracy := accuracy, best_param := c }
  else s

/-- A whole sweep over the full state. -/
def sweepFull (fitScore : List ℕ → List ℕ → ℕ → ℚ) (s : RunState)
    (cands : List ℕ) : RunState :=
  cands.foldl (sweepStepFull fitScore) s

/-- The sequence of accuracies computed by a sweep, in iteration order, each
recomputed by a fresh fit-and-score call at its own iteration. -/
def sweepFullAccs (fitScore : List ℕ → List ℕ → ℕ → ℚ) (s : RunState) :
    List ℕ → List ℚ
  | [] => []
  | c :: rest =>
    fitScore s.parts.train s.parts.valid c ::
      sweepFullAccs fitScore (sweepStepFull fitScore s c) rest

lemma sweepStepFull_parts (fitScore : List ℕ → List ℕ → ℕ → ℚ)
    (s : RunState) (c : ℕ) : (sweepStepFull fitScore s c).parts = s.parts := by
  by_cases h : fitScore s.parts.train s.parts.valid c > s.best_accuracy
  · simp [sweepStepFull, h]
  · simp [sweepStepFull, h]

lemma sweepFull_parts (fitScore : List ℕ → List ℕ → ℕ → ℚ)
    (cands : List ℕ) (s : RunState) :
    (sweepFull fitScore s cands).parts = s.parts := by
  induction cands generalizing s with
  | nil => rfl
  | cons c rest ih =>
    rw [sweepFull, List.foldl_cons]
    exact (ih (sweepStepFull fitScore s c)).trans
      (sweepStepFull_parts fitScore s c)

lemma sweepFullAccs_map (fitScore : List ℕ → List ℕ → ℕ → ℚ)
    (cands : List ℕ) (s : RunState) :
    sweepFullAccs fitScore s cands
      = cands.map (fitScore s.parts.train s.parts.valid) := by
  induction cands generalizing s with
  | nil => rfl
  | cons c rest ih =>
    rw [sweepFullAccs, List.map_cons, ih (sweepStepFull fitScore s c),
      sweepStepFull_parts]

/-- C9: no sweep iteration modifies the partitions: a sweep's final state
keeps exactly the initial partitions, and every candidate's accuracy is a
fresh fit-and-score evaluation against those same unchanged training and
validation partitions, with only the best accuracy and best hyperparameter
carried between iterations. -/
theorem c9_partitions_frame (fitScore : List ℕ → List ℕ → ℕ → ℚ)
    (s : RunState) (cands : List ℕ) :
    (sweepFull fitScore s cands).parts = s.parts ∧
    sweepFullAccs fitScore s cands
      = cands.map (fitScore s.parts.train s.parts.valid) :=
  ⟨sweepFull_parts fitScore cands s, sweepFullAccs_map fitScore cands s⟩

/-- Failure modes of the data load: a missing input file, a row that does
not match the five-column schema, and a cell that is not numeric. -/
inductive LoadError where
  | fileMissing
  | schemaMismatch
  | nonNumericValue
deriving DecidableEq

/-- A raw CSV: rows of cells, where a cell is some rational when its token
is numeric and none when it is not. -/
abbrev RawCsv := List (List (Option ℚ))

/-- Modelled from the spec: parsing one CSV row against the fixed schema of
four float features and one label. The CSV reader itself is library code
not present in this repository; the spec requires a fatal error on a schema
mismatch or a non-numeric value. -/
def parseRow : List (Option ℚ) → Except LoadError Observation
  | [some c, some m, some ms, some mb, some u] => .ok ⟨c, m, ms, mb, u⟩
  | row =>
    if row.length = 5 then .error .nonNumericValue else .error .schemaMismatch

/-- Modelled from the spec: the data load. A missing input is fatal;
otherwise every row is parsed and a malformed row is fatal. -/
def loadData : Option RawCsv → Except LoadError (List Observation)
  | none => .error .fileMissing
  | some rows => rows.mapM parseRow

/-- The whole run: load the data, then apply the remaining analysis, which
is a total function; the notebook installs no handler, so a load failure is
the run's result and no other error path exists. -/
def runPipeline (analyze : List Observation → ℚ) (input : Option RawCsv) :
    Except LoadError ℚ :=
  (loadData input).map analyze

/-- C8: a missing or malformed input aborts the run with exactly the load
error, with no recovery attempted; a successful load always yields a
successful run, so there is no other error path; a missing file, a
wrong-arity row and a non-numeric cell are fatal load errors. -/
theorem c8_load_error_propagates (analyze : List Observation → ℚ)
    (input : Option RawCsv) (e : LoadError) :
    (loadData input = .error e → runPipeline analyze input = .error e) ∧
    (∀ d, loadData input = .ok d →
      runPipeline analyze input = .ok (analyze d)) ∧
    loadData none = .error .fileMissing ∧
    parseRow [] = .error .schemaMismatch ∧
    parseRow [some 0, some 0, some 0, some 0, none]
      = .error .nonNumericValue := by
  refine ⟨fun h => ?_, fun d h => ?_, rfl, rfl, rfl⟩
  · unfold runPipeline
    rw [h]
    rfl
  · unfold runPipeline
    rw [h]
    rfl

/-- Witness for C8: with no input the run aborts with the file-missing
error, and with an empty well-formed input the run succeeds. -/
theorem c8_load_error_propagates_witness :
    runPipeline (fun _ => 0) none = .error .fileMissing ∧
    runPipeline (fun _ => 0) (some []) = .ok 0 := by
  have h1 := c8_load_error_propagates (fun _ => 0) none .fileMissing
  have h2 := c8_load_error_propagates (fun _ => 0) (some []) .fileMissing
  exact ⟨h1.1 rfl, h2.2.1 [] rfl⟩

/-- Number of test samples chosen by the library splitter for a fractional
test size: the ceiling of the fraction times the sample count. -/
def nTestSamples (q : ℚ) (n : ℕ) : ℕ := Nat.ceil (q * n)

/-- Modelled from the spec: the pseudo-random shuffle the library splitter
performs under a fixed seed. The shuffling algorithm itself is library code
not present in this repository; the spec requires only that the fixed seed
determine a fixed permutation of the rows, so a deterministic rotation
serves as that permutation. -/
def shuffle (seed : ℕ) (l : List ℕ) : List ℕ :=
  l.rotate (seed % (l.length + 1))

/-- The library two-way split: shuffle with the seed, place the first
nTestSamples rows in the second component (the test side) and the remaining
rows in the first component (the train side). -/
def train_test_split (q : ℚ) (seed : ℕ) (l : List ℕ) : List ℕ × List ℕ :=
  ((shuffle seed l).drop (nTestSamples q l.length),
   (shuffle seed l).take (nTestSamples q l.length))

/-- The two-stage split of the notebook: twenty percent test with seed
12345, then twenty-five percent of the remainder as validation with the
same seed, yielding (train, validation, test). -/
def splitData (seed : ℕ) (l : List ℕ) : List ℕ × List ℕ × List ℕ :=
  ((train_test_split (25 / 100) seed
      (train_test_split (20 / 100) seed l).1).1,
   (train_test_split (25 / 100) seed
      (train_test_split (20 / 100) seed l).1).2,
   (train_test_split (20 / 100) seed l).2)

lemma nTestSamples_fifth (n : ℕ) :
    n ≤ 5 * nTestSamples (20 / 100) n ∧
      5 * nTestSamples (20 / 100) n ≤ n + 4 := by
  unfold nTestSamples
  constructor
  · have h := Nat.le_ceil ((20 / 100 : ℚ) * n)
    have h2 : (n : ℚ) ≤ 5 * (Nat.ceil ((20 / 100 : ℚ) * n) : ℚ) := by
      linarith
    exact_mod_cast h2
  · have h : ((Nat.ceil ((20 / 100 : ℚ) * n)) : ℚ)
        < (20 / 100 : ℚ) * n + 1 := Nat.ceil_lt_add_one (by positivity)
    have h2 : 5 * ((Nat.ceil ((20 / 100 : ℚ) * n)) : ℚ) < n + 5 := by
      linarith
    have h3 : 5 * Nat.ceil ((20 / 100 : ℚ) * n) < n + 5 := by
      exact_mod_cast h2
    omega

lemma nTestSamples_quarter (m : ℕ) :
    m ≤ 4 * nTestSamples (25 / 100) m ∧
      4 * nTestSamples (25 / 100) m ≤ m + 3 := by
  unfold nTestSamples
  constructor
  · have h := Nat.le_ceil ((25 / 100 : ℚ) * m)
    have h2 : (m : ℚ) ≤ 4 * (Nat.ceil ((25 / 100 : ℚ) * m) : ℚ) := by
      linarith
    exact_mod_cast h2
  · have h : ((Nat.ceil ((25 / 100 : ℚ) * m)) : ℚ)
        < (25 / 100 : ℚ) * m + 1 := Nat.ceil_lt_add_one (by positivity)
    have h2 : 4 * ((Nat.ceil ((25 / 100 : ℚ) * m)) : ℚ) < m + 4 := by
      linarith
    have h3 : 4 * Nat.ceil ((25 / 100 : ℚ) * m) < m + 4 := by
      exact_mod_cast h2
    omega

lemma train_test_split_perm (q : ℚ) (seed : ℕ) (l : List ℕ) :
    ((train_test_split q seed l).1 ++ (train_test_split q seed l).2).Perm
      l := by
  unfold train_test_split
  refine List.Perm.trans List.perm_append_comm ?_
  rw [List.take_append_drop]
  unfold shuffle
  exact List.rotate_perm l _

lemma train_test_split_lengths (q : ℚ) (seed : ℕ) (l : List ℕ)
    (h : nTestSamples q l.length ≤ l.length) :
    (train_test_split q seed l).2.length = nTestSamples q l.length ∧
    (train_test_split q seed l).1.length
      = l.length - nTestSamples q l.length := by
  unfold train_test_split shuffle
  constructor
  · rw [List.length_take, List.length_rotate]
    exact Nat.min_eq_left h
  · rw [List.length_drop, List.length_rotate]

lemma splitData_lengths (seed n : ℕ) :
    (splitData seed (List.range n)).2.2.length = nTestSamples (20 / 100) n ∧
    (splitData seed (List.range n)).2.1.length
      = nTestSamples (25 / 100) (n - nTestSamples (20 / 100) n) ∧
    (splitData seed (List.range n)).1.length
      = n - nTestSamples (20 / 100) n
        - nTestSamples (25 / 100) (n - nTestSamples (20 / 100) n) := by
  have ht := nTestSamples_fifth n
  have hL1 := train_test_split_lengths (20 / 100) seed (List.range n)
    (by rw [List.length_range]; omega)
  rw [List.length_range] at hL1
  have hM : (train_test_split (20 / 100) seed (List.range n)).1.length
      = n - nTestSamples (20 / 100) n := hL1.2
  have hq := nTestSamples_quarter (n - nTestSamples (20 / 100) n)
  have hL2 := train_test_split_lengths (25 / 100) seed
    (train_test_split (20 / 100) seed (List.range n)).1
    (by rw [hM]; omega)
  rw [hM] at hL2
  exact ⟨hL1.1, hL2.1, hL2.2⟩

/-- C4: for every row count n, the two-stage split with seed 12345
partitions the rows: the three partition sizes sum to n and the
concatenation of the partitions is a permutation of the rows; the test and
validation sizes are the twenty-percent shares up to rounding and the
training size the remaining roughly sixty percent; running the split again
with the same seed on the same rows is the identical computation; at the
documented 3214 rows the sizes are 1928, 643 and 643. -/
theorem c4_split_partition (n : ℕ) :
    ((splitData 12345 (List.range n)).1.length
        + (splitData 12345 (List.range n)).2.1.length
        + (splitData 12345 (List.range n)).2.2.length = n) ∧
    ((splitData 12345 (List.range n)).1
        ++ (splitData 12345 (List.range n)).2.1
        ++ (splitData 12345 (List.range n)).2.2).Perm (List.range n) ∧
    (n ≤ 5 * (splitData 12345 (List.range n)).2.2.length ∧
      5 * (splitData 12345 (List.range n)).2.2.length ≤ n + 4) ∧
    (4 * n ≤ 20 * (splitData 12345 (List.range n)).2.1.length + 4 ∧
      20 * (splitData 12345 (List.range n)).2.1.length ≤ 4 * n + 15) ∧
    (12 * n ≤ 20 * (splitData 12345 (List.range n)).1.length + 31 ∧
      20 * (splitData 12345 (List.range n)).1.length ≤ 12 * n + 4) ∧
    splitData 12345 (List.range n) = splitData 12345 (List.range n) ∧
    ((splitData 12345 (List.range 3214)).1.length = 1928 ∧
      (splitData 12345 (List.range 3214)).2.1.length = 643 ∧
      (splitData 12345 (List.range 3214)).2.2.length = 643) := by
  have ht := nTestSamples_fifth n
  have hq := nTestSamples_quarter (n - nTestSamples (20 / 100) n)
  have hlen := splitData_lengths 12345 n
  have ht3 := nTestSamples_fifth 3214
  have hq3 := nTestSamples_quarter (3214 - nTestSamples (20 / 100) 3214)
  have hlen3 := splitData_lengths 12345 3214
  refine ⟨by omega, ?_, by omega, by omega, by omega, rfl, by omega⟩
  exact ((train_test_split_perm (25 / 100) 12345 _).append_right _).trans
    (train_test_split_perm (20 / 100) 12345 (List.range n))

end Megaline
